import Mathlib

/-!
Verification development for the speech-synthesis resolution and
duration-synchronized video assembly pipeline of the ai-ppt-converter
repository.  The Python modules src/modules/tts_engine.py and
src/modules/video_composer.py are shallowly embedded below: text is
modelled as List Char, external engines, the hash function and the file
system are modelled as explicit oracles, and stateful code is modelled by
explicit state passing.  All definitions are executable and compute by
kernel reduction (recursions are structural, using fuel where the source
recursion is not primitive).
-/

namespace PPT

/-! ## Text utilities (tts_engine.py lines 103-114 and 166-184) -/

/-- Whitespace characters recognised by Python str.strip and the regex
class \s (ASCII range; the inputs of interest are non-whitespace CJK and
ASCII text). -/
def pyIsSpace (c : Char) : Bool :=
  c = ' ' || c = '\t' || c = '\n' || c = '\r' || c = '\x0b' || c = '\x0c'

/-- Python str.strip(): remove leading and trailing whitespace. -/
def pyStrip (cs : List Char) : List Char :=
  ((cs.dropWhile pyIsSpace).reverse.dropWhile pyIsSpace).reverse

/-- Python truthiness test of line 103: not text or not text.strip(). -/
def pyFalsy (cs : List Char) : Bool :=
  cs.isEmpty || (pyStrip cs).isEmpty

/-- State machine equivalent of re.sub removing every occurrence of an
opening brace, one or more non-closing-brace characters, and a closing
brace (the marker regex of line 179).  The first component is the pending
buffer (reversed characters seen since an opening brace that has not yet
been matched or abandoned). -/
def removeMarkersGo : Option (List Char) → List Char → List Char
  | none, [] => []
  | some buf, [] => '{' :: buf.reverse
  | none, c :: rest =>
      if c = '{' then removeMarkersGo (some []) rest
      else c :: removeMarkersGo none rest
  | some buf, c :: rest =>
      if c = '}' then
        if buf.isEmpty then '{' :: '}' :: removeMarkersGo none rest
        else removeMarkersGo none rest
      else removeMarkersGo (some (c :: buf)) rest

/-- Remove all brace-delimited control markers (line 179). -/
def removeMarkers (cs : List Char) : List Char :=
  removeMarkersGo none cs

/-- State machine equivalent of re.sub collapsing every maximal run of
whitespace to a single space (line 182).  The Boolean records whether the
previous character was whitespace. -/
def collapseGo : Bool → List Char → List Char
  | _, [] => []
  | prev, c :: rest =>
      if pyIsSpace c then
        if prev then collapseGo true rest
        else ' ' :: collapseGo true rest
      else c :: collapseGo false rest

/-- Collapse whitespace runs to single spaces. -/
def collapseWS (cs : List Char) : List Char :=
  collapseGo false cs

/-- Embedding of clean_script_markers (lines 166-184): remove markers,
collapse whitespace, strip. -/
def clean_script_markers (cs : List Char) : List Char :=
  pyStrip (collapseWS (removeMarkers cs))

/-! ## Cache key (tts_engine.py lines 59-70) -/

/-- The string fed to the md5 digest by get_cache_key: the text and the
language joined by an underscore. -/
def cacheKeyInput (text lang : List Char) : List Char :=
  text ++ '_' :: lang

/-- Embedding of get_cache_key, parameterised by the digest function
(hashlib.md5 is external code, modelled as an arbitrary function). -/
def get_cache_key (hash : List Char → List Char) (text lang : List Char) :
    List Char :=
  hash (cacheKeyInput text lang)

/-! ## Speech resolver model (tts_engine.py lines 88-163)

The resolver is a pure function of a configuration (platform, library
availability, one input/output oracle per engine, the digest function),
a state (the cache directory and the surrounding file system, both maps
to audio byte contents), and the call arguments.  The outcome records the
returned value, the new state, and an execution trace: whether the cache
was consulted, whether it hit, whether it was written, and the list of
engines invoked, in order. -/

/-- Audio byte content, abstracted to a token. -/
abbrev Bytes := Nat

/-- Output file locations, abstracted to tokens. -/
abbrev FilePathTok := Nat

/-- Host operating system as seen by platform.system(). -/
inductive Platform where
  | darwin
  | linux
  | windows
  | other
deriving DecidableEq

/-- The four synthesis engines of the chain, in the order the code tries
them: macOS say, Edge TTS, gTTS, and the platform command-line fallback. -/
inductive Engine where
  | say
  | edge
  | gtts
  | fallback
deriving DecidableEq

/-- Configuration and external-world oracles of one resolver call. -/
structure TTSConfig where
  cacheEnabled : Bool
  platform : Platform
  gttsAvailable : Bool
  hash : List Char → List Char
  sayResult : List Char → List Char → Option Bytes
  edgeResult : List Char → List Char → Option Bytes
  gttsResult : List Char → List Char → Option Bytes
  fallbackResult : List Char → List Char → Option Bytes

/-- Mutable state touched by the resolver: the cache directory (keyed by
digest) and the rest of the file system (keyed by output location). -/
structure TTSState where
  cache : List Char → Option Bytes
  files : FilePathTok → Option Bytes

/-- Point update of a finite-map-as-function. -/
def updateFn {α β : Type} [DecidableEq α] (f : α → Option β) (a : α)
    (b : β) : α → Option β :=
  fun x => if x = a then some b else f x

/-- Outcome of one resolver call, with an execution trace. -/
structure TTSOutcome where
  result : Option FilePathTok
  state : TTSState
  lookedUp : Bool
  hit : Bool
  stored : Bool
  engines : List Engine

/-- The fallback engine returns nothing on unsupported platforms
(lines 433-435); otherwise its behaviour is the oracle's. -/
def fallbackOracle (cfg : TTSConfig) (t lang : List Char) : Option Bytes :=
  match cfg.platform with
  | .other => none
  | _ => cfg.fallbackResult t lang

/-- The result each engine produces when invoked on cleaned text. -/
def attempt (cfg : TTSConfig) (t lang : List Char) : Engine → Option Bytes
  | .say => cfg.sayResult t lang
  | .edge => cfg.edgeResult t lang
  | .gtts => cfg.gttsResult t lang
  | .fallback => fallbackOracle cfg t lang

/-- The engines the resolver will try, in order: say only on macOS
(line 129), Edge TTS, gTTS only when the library is importable
(line 140), then the fallback. -/
def chainEngines (cfg : TTSConfig) : List Engine :=
  (if cfg.platform = .darwin then [.say] else []) ++ [.edge] ++
    (if cfg.gttsAvailable then [.gtts] else []) ++ [.fallback]

/-- Run a list of candidate engines with their results: invoke each in
order, stop at the first success.  Returns the invocation trace and the
winning engine with its audio bytes, if any. -/
def runChain : List (Engine × Option Bytes) →
    List Engine × Option (Engine × Bytes)
  | [] => ([], none)
  | (e, r) :: rest =>
    match r with
    | some b => ([e], some (e, b))
    | none =>
      let p := runChain rest
      (e :: p.1, p.2)

/-- Outcome of the two early returns of lines 103-114: none, state
untouched, no cache interaction, no engine invoked. -/
def emptyOutcome (st : TTSState) : TTSOutcome :=
  ⟨none, st, false, false, false, []⟩

/-- Cache-miss part of text_to_speech (lines 127-163): run the engine
chain; a success writes the audio to the output location, and only a
gTTS success additionally copies the output into the cache
(lines 147-151). -/
def resolveViaChain (cfg : TTSConfig) (st : TTSState)
    (t : List Char) (outputPath : FilePathTok) (lang key : List Char) :
    TTSOutcome :=
  let p := runChain ((chainEngines cfg).map
    (fun e => (e, attempt cfg t lang e)))
  match p.2 with
  | none => ⟨none, st, cfg.cacheEnabled, false, false, p.1⟩
  | some (e, b) =>
      let st1 : TTSState :=
        { st with files := updateFn st.files outputPath b }
      if e = .gtts ∧ cfg.cacheEnabled then
        ⟨some outputPath,
          { st1 with cache := updateFn st1.cache key b },
          true, false, true, p.1⟩
      else
        ⟨some outputPath, st1, cfg.cacheEnabled, false, false, p.1⟩

/-- Main part of text_to_speech for non-empty cleaned text (lines
116-163): consult the cache when enabled — a hit copies the cached bytes
to the output location (lines 116-125) — otherwise run the engine
chain. -/
def resolveNonEmpty (cfg : TTSConfig) (st : TTSState) (t : List Char)
    (outputPath : FilePathTok) (lang : List Char) : TTSOutcome :=
  let key := cfg.hash (cacheKeyInput t lang)
  match (if cfg.cacheEnabled then st.cache key else none) with
  | some b =>
      ⟨some outputPath,
        { st with files := updateFn st.files outputPath b },
        true, true, false, []⟩
  | none => resolveViaChain cfg st t outputPath lang key

/-- Embedding of text_to_speech (lines 88-163).  Empty and
whitespace-only text, and text that cleans to empty, return none before
any cache interaction (lines 103-114); otherwise the cache and engine
chain logic of resolveNonEmpty runs on the cleaned text. -/
def text_to_speech (cfg : TTSConfig) (st : TTSState) (text : List Char)
    (outputPath : FilePathTok) (lang : List Char) : TTSOutcome :=
  if pyFalsy text then emptyOutcome st
  else
    let t := clean_script_markers (pyStrip text)
    if t.isEmpty then emptyOutcome st
    else resolveNonEmpty cfg st t outputPath lang

/-! ## Long-text Edge TTS path (tts_engine.py lines 293-366) -/

/-- Sentence-terminal punctuation of the split regex on line 314. -/
def isSentencePunct (c : Char) : Bool :=
  c = '。' || c = '！' || c = '？' || c = '.' || c = '!' || c = '?'

/-- Worker for the capturing re.split of line 314: the accumulator holds
the current non-delimiter run, reversed. -/
def splitKeepPunctGo (cur : List Char) : List Char → List (List Char)
  | [] => [cur.reverse]
  | c :: rest =>
      if isSentencePunct c then
        cur.reverse :: [c] :: splitKeepPunctGo [] rest
      else splitKeepPunctGo (c :: cur) rest

/-- Split text at sentence-terminal punctuation, keeping each punctuation
mark as its own one-character part (re.split with a capture group). -/
def splitKeepPunct (cs : List Char) : List (List Char) :=
  splitKeepPunctGo [] cs

/-- Accumulation loop of lines 316-327: parts are appended to the current
chunk while the combined length stays under 2800; otherwise the current
chunk is flushed (if non-empty) and the part starts a new chunk. -/
def buildSegmentsAux (cur : List Char) : List (List Char) →
    List (List Char)
  | [] => if cur.isEmpty then [] else [cur]
  | p :: ps =>
      if cur.length + p.length < 2800 then buildSegmentsAux (cur ++ p) ps
      else (if cur.isEmpty then [] else [cur]) ++ buildSegmentsAux p ps

/-- Chunks the long-text path synthesizes (lines 312-327). -/
def buildSegments (parts : List (List Char)) : List (List Char) :=
  buildSegmentsAux [] parts

/-- Chunking of the long-text path, from the raw text. -/
def edgeLongChunks (cs : List Char) : List (List Char) :=
  buildSegments (splitKeepPunct cs)

/-- A piece of assembled audio: a synthesized chunk (identified by a
token) or inserted silence of a given duration in milliseconds. -/
inductive AudioTok where
  | piece (id : Bytes)
  | silence (ms : Nat)
deriving DecidableEq

/-- Per-chunk synthesis loop of lines 331-352: each chunk is stripped,
empty chunks are skipped, and chunks whose synthesis fails are skipped. -/
def edgeLongPieces (synth : List Char → Option Bytes) (cs : List Char) :
    List Bytes :=
  (edgeLongChunks cs).filterMap (fun s =>
    let s' := pyStrip s
    if s'.isEmpty then none else synth s')

/-- Merge loop of lines 357-362: start from the first piece and append
200 ms of silence followed by the next piece, for every further piece. -/
def mergeChunkAudio : List Bytes → List AudioTok
  | [] => []
  | a :: rest =>
      rest.foldl (fun m b => m ++ [.silence 200, .piece b]) [.piece a]

/-- Embedding of text_to_speech_edge_long (lines 293-366): none when no
chunk synthesizes, otherwise the merged audio. -/
def text_to_speech_edge_long (synth : List Char → Option Bytes)
    (cs : List Char) : Option (List AudioTok) :=
  match edgeLongPieces synth cs with
  | [] => none
  | ps => some (mergeChunkAudio ps)

/-! ## Video composer model (video_composer.py lines 48-172 and 268-315)

File paths here are List Char; the file system is an oracle mapping each
audio path to its status (missing, unreadable, or readable with a
measured duration in seconds); external ffmpeg invocations are oracles
returning success or failure. -/

/-- Status of an audio file as seen by the duration calculator: absent
(line 152), present but failing to decode (line 166), or decodable with
a measured duration in seconds. -/
inductive FileStatus where
  | missing
  | unreadable
  | readable (seconds : ℚ)

/-- Embedding of calculate_durations_from_audio (lines 139-172): 3.0 for
a missing file, the measured duration clamped to [1.0, 30.0] for a
readable file, and 3.0 when reading fails. -/
def calculate_durations_from_audio (fs : List Char → FileStatus) :
    List (List Char) → List ℚ
  | [] => []
  | f :: rest =>
      (match fs f with
        | .missing => 3
        | .unreadable => 3
        | .readable q => max 1 (min 30 q)) ::
        calculate_durations_from_audio fs rest

/-- Python exceptions distinguished by the claims: the raw IndexError of
line 81 and the VideoCompositionError raised everywhere else. -/
inductive PyErr where
  | indexError
  | videoErr
deriving DecidableEq

/-- Outcome of a create_video run: the returned path or the raised
exception, the indices of the segments whose external encode was
attempted (in order), and whether the segment-merge step ran. -/
structure VideoRun where
  result : Except PyErr (List Char)
  encodeAttempts : List Nat
  merged : Bool

/-- Count-mismatch padding of lines 81-82: extend with copies of the last
audio entry, then truncate to the image count. -/
def padTo {α : Type} [Inhabited α] (n : Nat) (audio : List α) : List α :=
  (audio ++ List.replicate (n - audio.length) (audio.getLastD default)).take n

/-- Per-segment encode loop of lines 99-109 with the failure behaviour of
lines 311-315: segments are encoded in index order and the first failure
raises.  Fuel equals the number of remaining segments.  Returns the
attempted indices and whether all succeeded. -/
def encodeGo (ok : Nat → Bool) : Nat → Nat → List Nat × Bool
  | 0, _ => ([], true)
  | fuel + 1, i =>
      if ok i then
        let p := encodeGo ok fuel (i + 1)
        (i :: p.1, p.2)
      else ([i], false)

/-- Encode all n segments starting from index 0. -/
def encodeLoop (ok : Nat → Bool) (n : Nat) : List Nat × Bool :=
  encodeGo ok n 0

/-- Body of the try block of lines 89-136, after alignment: compute
durations, encode one segment per slide (first failure aborts), merge the
segments, and validate the output; every failure inside the try block is
re-raised as VideoCompositionError (lines 134-136). -/
def runEncodePhase (fs : List Char → FileStatus) (encodeOk : Nat → Bool)
    (mergeOk outputValid : Bool) (outputPath : List Char)
    (images audioAligned : List (List Char)) : VideoRun :=
  let _durations := calculate_durations_from_audio fs audioAligned
  let p := encodeLoop encodeOk images.length
  if p.2 then
    if mergeOk then
      if outputValid then ⟨.ok outputPath, p.1, true⟩
      else ⟨.error .videoErr, p.1, true⟩
    else ⟨.error .videoErr, p.1, true⟩
  else ⟨.error .videoErr, p.1, false⟩

/-- Embedding of create_video (lines 48-136).  Empty image list raises
VideoCompositionError (line 77, before the try block).  A count mismatch
runs the padding of lines 81-82, which evaluates audio_files[-1] and so
raises a raw IndexError when the audio list is empty — still before the
try block.  The remaining work happens inside the try block. -/
def create_video (fs : List Char → FileStatus) (encodeOk : Nat → Bool)
    (mergeOk outputValid : Bool) (images audio : List (List Char))
    (outputPath : List Char) : VideoRun :=
  if images.isEmpty then ⟨.error .videoErr, [], false⟩
  else if audio.length ≠ images.length then
    match audio with
    | [] => ⟨.error .indexError, [], false⟩
    | a :: rest =>
        runEncodePhase fs encodeOk mergeOk outputValid outputPath images
          (padTo images.length (a :: rest))
  else
    runEncodePhase fs encodeOk mergeOk outputValid outputPath images audio

/-- The audio-length scenario of the specification: three files whose
measured durations are 2 s, 40 s and 0.5 s. -/
def scenarioFS : List Char → FileStatus
  | ['a'] => .readable 2
  | ['b'] => .readable 40
  | ['c'] => .readable (1 / 2)
  | _ => .missing

/-! ## Batch scheduler model (tts_engine.py lines 475-529)

The batch prepares one task per non-empty script, submits them to a
thread pool, collects results in completion order (modelled as an
arbitrary permutation of the task list), and finally sorts the collected
paths by the page number parsed back out of each file name:
int(Path(x).stem.split(underscore)[1]).  The path machinery below
re-implements that parsing over List Char. -/

/-- Decimal digit character for a value below ten. -/
def digitChar : Nat → Char
  | 0 => '0'
  | 1 => '1'
  | 2 => '2'
  | 3 => '3'
  | 4 => '4'
  | 5 => '5'
  | 6 => '6'
  | 7 => '7'
  | 8 => '8'
  | _ => '9'

/-- Numeric value of a digit character. -/
def digitVal (c : Char) : Nat := c.toNat - 48

/-- Decimal digits of n, most significant first; fuel-driven so that it
computes by kernel reduction (any fuel at least n suffices). -/
def natDigitsF : Nat → Nat → List Char
  | 0, n => [digitChar (n % 10)]
  | fuel + 1, n =>
      if n < 10 then [digitChar n]
      else natDigitsF fuel (n / 10) ++ [digitChar (n % 10)]

/-- Decimal digits of n, most significant first. -/
def natDigits (n : Nat) : List Char := natDigitsF n n

/-- Python format 03d: pad the decimal form with leading zeros to at
least three characters. -/
def pad3 (n : Nat) : List Char :=
  List.replicate (3 - (natDigits n).length) '0' ++ natDigits n

/-- Parse a run of decimal digits (int() on the digits of a page
number). -/
def parseNat (cs : List Char) : Nat :=
  cs.foldl (fun a c => a * 10 + digitVal c) 0

/-- The file name audio_XXX.mp3 generated for a page (line 502). -/
def audioName (page : Nat) : List Char :=
  "audio_".toList ++ pad3 page ++ ".mp3".toList

/-- Full output path: directory, separator, file name. -/
def audioPath (dir : List Char) (page : Nat) : List Char :=
  dir ++ '/' :: audioName page

/-- Path component after the last slash (Path(x).name). -/
def filenamePart (cs : List Char) : List Char :=
  (cs.reverse.takeWhile (fun c => c ≠ '/')).reverse

/-- File name without its final extension (Path(x).stem). -/
def stemPart (cs : List Char) : List Char :=
  if '.' ∈ cs then ((cs.reverse.dropWhile (fun c => c ≠ '.')).tail).reverse
  else cs

/-- Worker for splitting at a separator character (str.split). -/
def splitOnCharGo (sep : Char) (cur : List Char) : List Char →
    List (List Char)
  | [] => [cur.reverse]
  | c :: rest =>
      if c = sep then cur.reverse :: splitOnCharGo sep [] rest
      else splitOnCharGo sep (c :: cur) rest

/-- Split a character list at every occurrence of a separator. -/
def splitOnChar (sep : Char) (cs : List Char) : List (List Char) :=
  splitOnCharGo sep [] cs

/-- Sort key of line 525: int(Path(x).stem.split(underscore)[1]). -/
def sortKey (cs : List Char) : Nat :=
  parseNat ((splitOnChar '_' (stemPart (filenamePart cs))).getD 1 [])

/-- Comparison used to reorder collected audio paths by page number. -/
def keyLE (a b : List Char) : Prop := sortKey a ≤ sortKey b

instance : DecidableRel keyLE :=
  fun a b => Nat.decLe (sortKey a) (sortKey b)

instance : IsTotal (List Char) keyLE :=
  ⟨fun a b => Nat.le_total (sortKey a) (sortKey b)⟩

instance : IsTrans (List Char) keyLE :=
  ⟨fun _ _ _ hab hbc => Nat.le_trans hab hbc⟩

/-- One entry of the scripts argument of text_to_speech_batch: an
optional page number and the script/content fields. -/
structure Script where
  page : Option Nat
  script : List Char
  content : List Char
deriving DecidableEq

/-- One prepared task (line 503): the text to synthesize and the page
number used for its output file name. -/
structure BatchTask where
  text : List Char
  page : Nat
deriving DecidableEq

/-- Task preparation loop of lines 495-503: skip scripts whose script
field and content field are both empty (the Python or of line 496),
default the page to the 1-based position. -/
def prepTasks : Nat → List Script → List BatchTask
  | _, [] => []
  | idx, s :: rest =>
      let t := if s.script.isEmpty then s.content else s.script
      if t.isEmpty then prepTasks (idx + 1) rest
      else ⟨t, s.page.getD (idx + 1)⟩ :: prepTasks (idx + 1) rest

/-- Result collection of lines 512-522 over a given completion order:
each successful task contributes its output path. -/
def collectResults (dir : List Char) (succ : List Char → Bool)
    (order : List BatchTask) : List (List Char) :=
  order.filterMap (fun tk =>
    if succ tk.text then some (audioPath dir tk.page) else none)

/-- Embedding of the tail of text_to_speech_batch (lines 506-529): collect
results in completion order, then sort by the page number parsed from
each file name (Python list.sort is stable; a stable sort is
insertion sort). -/
def text_to_speech_batch (dir : List Char) (succ : List Char → Bool)
    (completionOrder : List BatchTask) : List (List Char) :=
  List.insertionSort keyLE (collectResults dir succ completionOrder)

/-! ## Theorems -/

/-- The loop of calculate_durations_from_audio is a map of its body. -/
lemma calc_durations_eq_map (fs : List Char → FileStatus)
    (files : List (List Char)) :
    calculate_durations_from_audio fs files = files.map (fun f =>
      match fs f with
      | .missing => 3
      | .unreadable => 3
      | .readable q => max 1 (min 30 q)) := by
  induction files with
  | nil => rfl
  | cons f rest ih => simp [calculate_durations_from_audio, ih]

/-- C4: the duration calculator returns one duration per input path;
the duration at each position is the measured length clamped to
[1.0, 30.0] when the file is readable and the fixed default 3.0 when it
is missing or unreadable; every entry (and the out-of-range default)
lies in [1.0, 30.0]; and the measured lengths 2.0, 40.0, 0.5 yield the
durations 2.0, 30.0, 1.0. -/
theorem duration_calculator_spec :
    (∀ fs files,
      (calculate_durations_from_audio fs files).length = files.length)
    ∧ (∀ fs files (i : Nat),
      (calculate_durations_from_audio fs files)[i]? =
        (files[i]?).map (fun f =>
          match fs f with
          | .missing => 3
          | .unreadable => 3
          | .readable q => max 1 (min 30 q)))
    ∧ (∀ fs files (i : Nat),
      1 ≤ (calculate_durations_from_audio fs files).getD i 3
        ∧ (calculate_durations_from_audio fs files).getD i 3 ≤ 30)
    ∧ calculate_durations_from_audio scenarioFS [['a'], ['b'], ['c']] =
        [2, 30, 1] := by
  refine ⟨fun fs files => ?_, fun fs files i => ?_, fun fs files i => ?_,
    ?_⟩
  · simp [calc_durations_eq_map]
  · rw [calc_durations_eq_map, List.getElem?_map]
  · rw [List.getD_eq_getElem?_getD, calc_durations_eq_map,
      List.getElem?_map]
    rcases h : files[i]? with _ | f
    · norm_num
    · simp only [Option.map_some', Option.getD_some]
      rcases fs f with _ | _ | q
      · norm_num
      · norm_num
      · constructor
        · exact le_max_left 1 _
        · exact max_le (by norm_num) (min_le_left 30 q)
  · show [max 1 (min 30 2), max 1 (min 30 40),
      max 1 (min 30 ((1 : ℚ) / 2))] = [2, 30, 1]
    norm_num

/-- C3: when the audio list is non-empty and strictly shorter than the
image list, the alignment step returns exactly one audio entry per image;
positions covered by the original list keep their artifact, and every
padded position receives the nearest prior successful artifact, which is
the last entry of the original list — uniformly, position i receives the
artifact at index min i (audio.length - 1). -/
theorem audio_alignment_pads_with_last {α : Type} [Inhabited α]
    (images audio : List α) (hne : audio ≠ [])
    (hlt : audio.length < images.length) :
    (padTo images.length audio).length = images.length
      ∧ ∀ i : Fin images.length,
        (padTo images.length audio).getD i.val default =
          audio.getD (min i.val (audio.length - 1)) default := by
  have hlen : (padTo images.length audio).length = images.length := by
    simp [padTo]
    omega
  refine ⟨hlen, fun i => ?_⟩
  rcases i with ⟨i, hi⟩
  rw [List.getD_eq_getElem?_getD, List.getD_eq_getElem?_getD, padTo,
    List.getElem?_take_of_lt hi]
  by_cases hcase : i < audio.length
  · rw [List.getElem?_append_left hcase]
    have : min i (audio.length - 1) = i := by omega
    rw [this]
  · rw [List.getElem?_append_right (by omega)]
    have hrep : i - audio.length <
        (List.replicate (images.length - audio.length)
          (audio.getLastD default)).length := by
      simp
      omega
    rw [List.getElem?_eq_getElem hrep]
    simp only [List.getElem_replicate]
    have hmin : min i (audio.length - 1) = audio.length - 1 := by omega
    rw [hmin]
    have hlast : audio.getLastD default =
        audio.getD (audio.length - 1) default := by
      rcases List.exists_cons_of_ne_nil hne with ⟨a, rest, rfl⟩
      rw [List.getLastD_eq_getLast?, List.getLast?_eq_getElem?,
        List.getD_eq_getElem?_getD]
    rw [hlast, List.getD_eq_getElem?_getD]
    simp

/-- Witness for the alignment theorem at a concrete input: three images
and two audio artifacts. -/
theorem audio_alignment_pads_with_last_witness :
    (([5, 6] : List Nat) ≠ [] ∧
        ([5, 6] : List Nat).length < ([0, 0, 0] : List Nat).length)
      ∧ ((padTo ([0, 0, 0] : List Nat).length [5, 6]).length =
          ([0, 0, 0] : List Nat).length
        ∧ ∀ i : Fin ([0, 0, 0] : List Nat).length,
          (padTo ([0, 0, 0] : List Nat).length [5, 6]).getD i.val
              default =
            [5, 6].getD (min i.val (([5, 6] : List Nat).length - 1))
              default) :=
  ⟨⟨by decide, by decide⟩,
    audio_alignment_pads_with_last [0, 0, 0] [5, 6] (by decide)
      (by decide)⟩

/-- C10: create_video with a non-empty image list and an empty audio
list fails on the padding expression audio_files[-1] before the
error-wrapping try block, so the run surfaces a raw IndexError — not a
VideoCompositionError — with no segment encoded and no merge. -/
theorem empty_audio_raises_index_error (fs : List Char → FileStatus)
    (encodeOk : Nat → Bool) (mergeOk outputValid : Bool)
    (images : List (List Char)) (outputPath : List Char)
    (himg : images ≠ []) :
    create_video fs encodeOk mergeOk outputValid images [] outputPath =
      ⟨.error .indexError, [], false⟩ := by
  have h0 : images.isEmpty = false := by
    simp [List.isEmpty_iff, himg]
  have hlen : ([] : List (List Char)).length ≠ images.length := by
    simp
    exact fun h => himg (List.eq_nil_of_length_eq_zero h.symm)
  simp [create_video, h0, hlen]
  exact fun h => absurd h (by simpa using hlen)

/-- Witness for the IndexError theorem at a concrete input: one image,
no audio. -/
theorem empty_audio_raises_index_error_witness :
    ([['i']] : List (List Char)) ≠ []
      ∧ create_video (fun _ => .missing) (fun _ => true) true true
          [['i']] [] ['o'] = ⟨.error .indexError, [], false⟩ :=
  ⟨by decide,
    empty_audio_raises_index_error (fun _ => .missing) (fun _ => true)
      true true [['i']] ['o'] (by decide)⟩

/-- Encode loop behaviour when index i is the first failure: every
segment from the start index up to and including i is attempted exactly
once, in order, and the loop reports failure. -/
lemma encodeGo_first_fail (ok : Nat → Bool) (i : Nat)
    (hfail : ok i = false) :
    ∀ fuel s, s ≤ i → i < s + fuel →
      (∀ j, s ≤ j → j < i → ok j = true) →
      encodeGo ok fuel s = (List.range' s (i + 1 - s), false) := by
  intro fuel
  induction fuel with
  | zero => intro s _ h2 _; omega
  | succ fuel ih =>
      intro s h1 h2 hprev
      by_cases hsi : s = i
      · subst hsi
        simp [encodeGo, hfail]
      · have hok : ok s = true := hprev s le_rfl (by omega)
        have hrec := ih (s + 1) (by omega) (by omega)
          (fun j hj1 hj2 => hprev j (by omega) hj2)
        simp [encodeGo, hok, hrec]
        have hstep : i + 1 - s = (i - s) + 1 := by omega
        rw [hstep, List.range'_succ]

/-- Encode-phase behaviour on first failure i: the run raises
VideoCompositionError, the merge step never runs, and the attempted
segments are exactly 0, 1, ..., i. -/
lemma runEncodePhase_first_fail (fs : List Char → FileStatus)
    (encodeOk : Nat → Bool) (mergeOk outputValid : Bool)
    (outputPath : List Char) (images audioAligned : List (List Char))
    (i : Nat) (hi : i < images.length) (hfail : encodeOk i = false)
    (hprev : ∀ j, j < i → encodeOk j = true) :
    runEncodePhase fs encodeOk mergeOk outputValid outputPath images
        audioAligned =
      ⟨.error .videoErr, List.range (i + 1), false⟩ := by
  have hloop : encodeLoop encodeOk images.length =
      (List.range' 0 (i + 1), false) := by
    have := encodeGo_first_fail encodeOk i hfail images.length 0
      (by omega) (by omega) (fun j _ hj => hprev j hj)
    simpa [encodeLoop] using this
  simp [runEncodePhase, hloop, List.range_eq_range']

/-- C9: if the external encode step of some segment fails (all earlier
segments having succeeded), the whole create_video run aborts with
VideoCompositionError: each segment up to the failing one is attempted
exactly once, none is retried or skipped, the merge step never runs, and
no final video is produced. -/
theorem segment_encode_failure_aborts_run (fs : List Char → FileStatus)
    (encodeOk : Nat → Bool) (mergeOk outputValid : Bool)
    (images audio : List (List Char)) (outputPath : List Char) (i : Nat)
    (himg : images ≠ []) (haud : audio ≠ [])
    (hi : i < images.length) (hfail : encodeOk i = false)
    (hprev : ∀ j, j < i → encodeOk j = true) :
    create_video fs encodeOk mergeOk outputValid images audio
        outputPath =
      ⟨.error .videoErr, List.range (i + 1), false⟩ := by
  have h0 : images.isEmpty = false := by
    simp [List.isEmpty_iff, himg]
  rcases List.exists_cons_of_ne_nil haud with ⟨a, rest, rfl⟩
  by_cases hlen : (a :: rest).length = images.length
  · simp [create_video, h0, hlen,
      runEncodePhase_first_fail fs encodeOk mergeOk outputValid
        outputPath images _ i hi hfail hprev]
  · simp [create_video, h0, hlen,
      runEncodePhase_first_fail fs encodeOk mergeOk outputValid
        outputPath images _ i hi hfail hprev]

/-- Witness for the segment-failure theorem at a concrete input: two
images, two audio files, second encode fails. -/
theorem segment_encode_failure_aborts_run_witness :
    (([['x'], ['y']] : List (List Char)) ≠ []
        ∧ ([['a'], ['b']] : List (List Char)) ≠ []
        ∧ 1 < ([['x'], ['y']] : List (List Char)).length
        ∧ (fun j => decide (j = 0)) 1 = false
        ∧ ∀ j, j < 1 → (fun j => decide (j = 0)) j = true)
      ∧ create_video (fun _ => .missing) (fun j => decide (j = 0)) true
          true [['x'], ['y']] [['a'], ['b']] ['o'] =
        ⟨.error .videoErr, List.range 2, false⟩ :=
  ⟨⟨by decide, by decide, by decide, by decide, by decide⟩,
    segment_encode_failure_aborts_run (fun _ => .missing)
      (fun j => decide (j = 0)) true true [['x'], ['y']]
      [['a'], ['b']] ['o'] 1 (by decide) (by decide) (by decide)
      (by decide) (by decide)⟩

/-- C5: on input text that is empty, whitespace-only, or cleans to
empty after marker stripping, resolve returns none immediately: the
state (cache included) is untouched, the cache is neither consulted nor
written, and no engine is invoked. -/
theorem empty_text_returns_null (cfg : TTSConfig) (st : TTSState)
    (text : List Char) (outputPath : FilePathTok) (lang : List Char)
    (h : pyFalsy text = true
      ∨ (clean_script_markers (pyStrip text)).isEmpty = true) :
    text_to_speech cfg st text outputPath lang =
      ⟨none, st, false, false, false, []⟩ := by
  rcases h with h | h
  · simp [text_to_speech, h, emptyOutcome]
  · by_cases hf : pyFalsy text
    · simp [text_to_speech, hf, emptyOutcome]
    · simp [text_to_speech, hf, h, emptyOutcome]

/-- Witness for the empty-text theorem at a concrete input: text that is
a single control marker, which cleans to empty. -/
theorem empty_text_returns_null_witness :
    (pyFalsy ['{', 'x', '}'] = true
        ∨ (clean_script_markers (pyStrip ['{', 'x', '}'])).isEmpty =
            true)
      ∧ text_to_speech
          ⟨true, .linux, true, id, fun _ _ => none, fun _ _ => none,
            fun _ _ => none, fun _ _ => none⟩
          ⟨fun _ => none, fun _ => none⟩ ['{', 'x', '}'] 0 [] =
        ⟨none, ⟨fun _ => none, fun _ => none⟩, false, false, false,
          []⟩ :=
  ⟨Or.inr (by decide),
    empty_text_returns_null _ _ ['{', 'x', '}'] 0 []
      (Or.inr (by decide))⟩

/-- C6 counterexample: the two distinct (text, language) pairs
(a_b, c) and (a, b_c) produce the same string text_lang fed to the
digest, hence the same cache key for every digest function — distinct
pairs do not always yield distinct keys. -/
theorem cache_key_pair_collision :
    cacheKeyInput "a_b".toList "c".toList =
        cacheKeyInput "a".toList "b_c".toList
      ∧ ("a_b".toList, "c".toList) ≠ ("a".toList, "b_c".toList)
      ∧ get_cache_key id "a_b".toList "c".toList =
          get_cache_key id "a".toList "b_c".toList := by
  refine ⟨by decide, by decide, by decide⟩

/-- C6 amended: the cache key is a deterministic function of the
underscore-joined string text_lang, and for a fixed language the joined
strings — hence the pre-digest keys — coincide exactly when the texts
coincide.  Injectivity across different (text, language) pairs fails
because the underscore join is ambiguous (see the counterexample). -/
theorem cache_key_deterministic_and_text_injective :
    (∀ (hash : List Char → List Char) (t lang : List Char),
      get_cache_key hash t lang = hash (cacheKeyInput t lang))
    ∧ ∀ t₁ t₂ lang : List Char,
      cacheKeyInput t₁ lang = cacheKeyInput t₂ lang ↔ t₁ = t₂ := by
  refine ⟨fun hash t lang => rfl, fun t₁ t₂ lang => ?_⟩
  constructor
  · intro h
    exact List.append_cancel_right h
  · intro h
    rw [h]

/-- Splitting text with no sentence-terminal punctuation yields a single
part. -/
lemma splitKeepPunctGo_no_punct :
    ∀ (cs cur : List Char), (∀ c ∈ cs, isSentencePunct c = false) →
      splitKeepPunctGo cur cs = [cur.reverse ++ cs] := by
  intro cs
  induction cs with
  | nil => intro cur _; simp [splitKeepPunctGo]
  | cons c rest ih =>
      intro cur h
      have hc : isSentencePunct c = false := h c (List.mem_cons_self c rest)
      have hrest := ih (c :: cur) (fun x hx => h x (List.mem_cons_of_mem c hx))
      simp [splitKeepPunctGo, hc, hrest]

/-- Splitting any text with no sentence-terminal punctuation yields that
text as the single part. -/
lemma splitKeepPunct_no_punct (cs : List Char)
    (h : ∀ c ∈ cs, isSentencePunct c = false) :
    splitKeepPunct cs = [cs] := by
  have := splitKeepPunctGo_no_punct cs [] h
  simpa [splitKeepPunct] using this

/-- A single oversized non-empty part passes through the accumulation
loop as a single oversized chunk. -/
lemma buildSegments_single_big (t : List Char)
    (hbig : ¬ t.length < 2800) (hne : t ≠ []) :
    buildSegments [t] = [t] := by
  simp [buildSegments, buildSegmentsAux, hbig, List.isEmpty_iff, hne]

/-- Concatenating the chunks of the accumulation loop restores the
pending chunk followed by all remaining parts. -/
lemma buildSegmentsAux_join :
    ∀ (parts : List (List Char)) (cur : List Char),
      (buildSegmentsAux cur parts).flatten = cur ++ parts.flatten := by
  intro parts
  induction parts with
  | nil =>
      intro cur
      by_cases hc : cur.isEmpty
      · simp [buildSegmentsAux, hc, List.isEmpty_iff.mp hc]
      · simp [buildSegmentsAux, hc]
  | cons p ps ih =>
      intro cur
      by_cases hlen : cur.length + p.length < 2800
      · simp [buildSegmentsAux, hlen, ih]
      · by_cases hc : cur.isEmpty
        · simp [buildSegmentsAux, hlen, hc, ih, List.isEmpty_iff.mp hc]
        · simp [buildSegmentsAux, hlen, hc, ih]

/-- Concatenating the parts of the punctuation split restores the
original text. -/
lemma splitKeepPunctGo_join :
    ∀ (cs cur : List Char),
      (splitKeepPunctGo cur cs).flatten = cur.reverse ++ cs := by
  intro cs
  induction cs with
  | nil => intro cur; simp [splitKeepPunctGo]
  | cons c rest ih =>
      intro cur
      by_cases hc : isSentencePunct c
      · simp [splitKeepPunctGo, hc, ih]
      · simpa [splitKeepPunctGo, hc] using ih (c :: cur)

/-- When every remaining part is below the margin and the pending chunk
is below the margin, every produced chunk is below the margin. -/
lemma buildSegmentsAux_bound :
    ∀ (parts : List (List Char)) (cur : List Char),
      cur.length < 2800 → (∀ p ∈ parts, p.length < 2800) →
      ∀ s ∈ buildSegmentsAux cur parts, s.length < 2800 := by
  intro parts
  induction parts with
  | nil =>
      intro cur hcur _ s hs
      by_cases hc : cur.isEmpty <;> simp [buildSegmentsAux, hc] at hs
      · exact hs ▸ hcur
  | cons p ps ih =>
      intro cur hcur hparts s hs
      have hp : p.length < 2800 := hparts p (List.mem_cons_self p ps)
      have hps : ∀ q ∈ ps, q.length < 2800 :=
        fun q hq => hparts q (List.mem_cons_of_mem p hq)
      by_cases hlen : cur.length + p.length < 2800
      · simp only [buildSegmentsAux, if_pos hlen] at hs
        exact ih (cur ++ p) (by simpa using hlen) hps s hs
      · simp only [buildSegmentsAux, if_neg hlen] at hs
        rcases List.mem_append.mp hs with hs1 | hs2
        · by_cases hc : cur.isEmpty <;> simp [hc] at hs1
          exact hs1 ▸ hcur
        · exact ih p hp hps s hs2

/-- The merge loop over the tail pieces appends a silence-piece pair per
remaining piece. -/
lemma mergeFold_eq_join (rest : List Bytes) :
    ∀ m : List AudioTok,
      rest.foldl (fun m b => m ++ [.silence 200, .piece b]) m =
        m ++ (rest.map fun b =>
          ([.silence 200, .piece b] : List AudioTok)).flatten := by
  induction rest with
  | nil => intro m; simp
  | cons b rest ih => intro m; simp [ih]

/-- The merged audio is exactly the synthesized pieces with one 200 ms
silence inserted between consecutive pieces. -/
lemma mergeChunkAudio_eq_intersperse :
    ∀ ps : List Bytes,
      mergeChunkAudio ps =
        (ps.map AudioTok.piece).intersperse (.silence 200) := by
  intro ps
  cases ps with
  | nil => rfl
  | cons a rest =>
      rw [mergeChunkAudio, mergeFold_eq_join]
      induction rest generalizing a with
      | nil => simp [List.intersperse]
      | cons b rest ih =>
          simp only [List.map_cons, List.intersperse] at ih ⊢
          simp [← ih b]

/-- C7 counterexample: a text of 3001 identical letters exceeds the
3000-character per-call ceiling, so the long-text path is taken, yet the
splitter produces a single chunk of length 3001 — not below the 2800
safety margin, and not even below the ceiling itself. -/
theorem long_sentence_chunk_exceeds_ceiling :
    (List.replicate 3001 'a').length > 3000
      ∧ edgeLongChunks (List.replicate 3001 'a') =
          [List.replicate 3001 'a']
      ∧ ¬ ∀ s ∈ edgeLongChunks (List.replicate 3001 'a'),
          s.length < 2800 := by
  have hlen : (List.replicate 3001 'a').length = 3001 := by
    rw [List.length_replicate]
  have hne : List.replicate 3001 'a' ≠ [] := by
    intro h
    have h2 := congrArg List.length h
    rw [List.length_replicate, List.length_nil] at h2
    exact absurd h2 (by decide)
  have hsplit : splitKeepPunct (List.replicate 3001 'a') =
      [List.replicate 3001 'a'] :=
    splitKeepPunct_no_punct (List.replicate 3001 'a')
      (fun c hc => by rw [List.eq_of_mem_replicate hc]; decide)
  have hchunks : edgeLongChunks (List.replicate 3001 'a') =
      [List.replicate 3001 'a'] := by
    rw [edgeLongChunks, hsplit]
    exact buildSegments_single_big _ (by rw [hlen]; decide) hne
  refine ⟨by rw [hlen]; decide, hchunks, ?_⟩
  intro hall
  have hbad := hall (List.replicate 3001 'a')
    (by rw [hchunks]; exact List.mem_singleton_self _)
  rw [hlen] at hbad
  exact absurd hbad (by decide)

/-- C7 amended: provided every part produced by the sentence split
(sentence runs and punctuation marks) is shorter than the 2800-character
safety margin, every chunk stays below the margin; the chunks always
concatenate back to the original text in order (parts are never
reordered or broken internally, though a chunk may end just before its
sentence's terminal punctuation mark); and the synthesized pieces are
concatenated with exactly one fixed 200 ms silence between consecutive
pieces. -/
theorem long_text_chunking_amended (t : List Char)
    (synth : List Char → Option Bytes)
    (h : ∀ p ∈ splitKeepPunct t, p.length < 2800) :
    (∀ s ∈ edgeLongChunks t, s.length < 2800)
      ∧ (edgeLongChunks t).flatten = t
      ∧ text_to_speech_edge_long synth t =
          (match edgeLongPieces synth t with
            | [] => none
            | ps =>
                some ((ps.map AudioTok.piece).intersperse
                  (.silence 200))) := by
  refine ⟨?_, ?_, ?_⟩
  · exact buildSegmentsAux_bound (splitKeepPunct t) [] (by simp) h
  · rw [edgeLongChunks, buildSegments, buildSegmentsAux_join]
    simpa [splitKeepPunct] using splitKeepPunctGo_join t []
  · rw [text_to_speech_edge_long]
    rcases edgeLongPieces synth t with _ | ⟨a, ps⟩
    · rfl
    · simp [mergeChunkAudio_eq_intersperse]

/-- Witness for the amended chunking theorem at a concrete input: two
short sentences around one terminal punctuation mark. -/
theorem long_text_chunking_amended_witness :
    (∀ p ∈ splitKeepPunct "ab。cd".toList, p.length < 2800)
      ∧ ((∀ s ∈ edgeLongChunks "ab。cd".toList, s.length < 2800)
        ∧ (edgeLongChunks "ab。cd".toList).flatten = "ab。cd".toList
        ∧ text_to_speech_edge_long (fun _ => some 1) "ab。cd".toList =
            (match edgeLongPieces (fun _ => some 1) "ab。cd".toList with
              | [] => none
              | ps =>
                  some ((ps.map AudioTok.piece).intersperse
                    (.silence 200)))) :=
  ⟨by decide,
    long_text_chunking_amended "ab。cd".toList (fun _ => some 1)
      (by decide)⟩

/-- The invocation trace of the chain: every engine in the failing
prefix, followed by the first succeeding engine if there is one. -/
lemma runChain_trace (f : Engine → Option Bytes) :
    ∀ es : List Engine,
      (runChain (es.map fun e => (e, f e))).1 =
        es.takeWhile (fun e => (f e).isNone) ++
          (es.dropWhile (fun e => (f e).isNone)).take 1 := by
  intro es
  induction es with
  | nil => rfl
  | cons e es ih =>
      rcases h : f e with _ | b
      · simp [runChain, h, List.takeWhile_cons, List.dropWhile_cons, ih]
      · simp [runChain, h, List.takeWhile_cons, List.dropWhile_cons]

/-- The winner of the chain: the first engine whose oracle succeeds. -/
lemma runChain_winner (f : Engine → Option Bytes) :
    ∀ es : List Engine,
      (runChain (es.map fun e => (e, f e))).2 =
        (match (es.dropWhile fun e => (f e).isNone).head? with
          | none => none
          | some e => (f e).map (fun b => (e, b))) := by
  intro es
  induction es with
  | nil => rfl
  | cons e es ih =>
      rcases h : f e with _ | b
      · simp [runChain, h, List.dropWhile_cons, ih]
      · simp [runChain, h, List.dropWhile_cons]

/-- The invocation trace is a subsequence of the candidate list. -/
lemma runChain_trace_sublist (f : Engine → Option Bytes)
    (es : List Engine) :
    List.Sublist (runChain (es.map fun e => (e, f e))).1 es := by
  rw [runChain_trace]
  have h1 : List.Sublist
      (es.takeWhile (fun e => (f e).isNone) ++
        (es.dropWhile (fun e => (f e).isNone)).take 1)
      (es.takeWhile (fun e => (f e).isNone) ++
        es.dropWhile (fun e => (f e).isNone)) :=
    List.Sublist.append (List.Sublist.refl _) (List.take_sublist _ _)
  simpa [List.takeWhile_append_dropWhile] using h1

/-- Every engine in the trace except the last failed. -/
lemma runChain_dropLast_failed (f : Engine → Option Bytes)
    (es : List Engine) :
    ∀ e ∈ (runChain (es.map fun e => (e, f e))).1.dropLast,
      f e = none := by
  rw [runChain_trace]
  intro e he
  rcases hdw : es.dropWhile (fun e => (f e).isNone) with _ | ⟨d, dw⟩
  · rw [hdw] at he
    simp only [List.take_nil, List.append_nil] at he
    have hmem := (List.dropLast_sublist _).mem he
    have := List.mem_takeWhile_imp hmem
    simpa [Option.isNone_iff_eq_none] using this
  · rw [hdw] at he
    rw [List.take_succ_cons, List.take_zero, List.dropLast_concat] at he
    have := List.mem_takeWhile_imp he
    simpa [Option.isNone_iff_eq_none] using this

/-- A winner is the last engine in the trace, and its oracle succeeded. -/
lemma runChain_last_success (f : Engine → Option Bytes)
    (es : List Engine) (e : Engine) (b : Bytes)
    (h : (runChain (es.map fun x => (x, f x))).2 = some (e, b)) :
    (runChain (es.map fun x => (x, f x))).1.getLast? = some e
      ∧ f e = some b := by
  rw [runChain_winner] at h
  rcases hdw : es.dropWhile (fun x => (f x).isNone) with _ | ⟨d, dw⟩
  · rw [hdw] at h
    simp at h
  · rw [hdw] at h
    simp only [List.head?_cons] at h
    rcases hd : f d with _ | b'
    · rw [hd] at h
      simp at h
    · rw [hd] at h
      simp only [Option.map_some'] at h
      have hde : d = e ∧ b' = b := by
        constructor
        · exact congrArg Prod.fst (Option.some.inj h)
        · exact congrArg Prod.snd (Option.some.inj h)
      rcases hde with ⟨rfl, rfl⟩
      refine ⟨?_, hd⟩
      rw [runChain_trace, hdw]
      simp [List.getLast?_concat]

/-- The engine chain is always a subsequence of the full priority
order. -/
lemma chainEngines_sublist (cfg : TTSConfig) :
    List.Sublist (chainEngines cfg) [.say, .edge, .gtts, .fallback] := by
  by_cases hd : cfg.platform = .darwin <;>
    by_cases hg : cfg.gttsAvailable <;>
    simp [chainEngines, hd, hg]

/-- The engines field of the chain resolver is the chain trace. -/
lemma resolveViaChain_engines (cfg : TTSConfig) (st : TTSState)
    (t : List Char) (outputPath : FilePathTok) (lang key : List Char) :
    (resolveViaChain cfg st t outputPath lang key).engines =
      (runChain ((chainEngines cfg).map
        (fun e => (e, attempt cfg t lang e)))).1 := by
  rw [resolveViaChain]
  rcases hw : (runChain ((chainEngines cfg).map
      (fun e => (e, attempt cfg t lang e)))).2 with _ | ⟨e, b⟩
  · simp [hw]
  · simp only [hw]
    split <;> rfl

/-- The chain resolver never reports a cache hit. -/
lemma resolveViaChain_hit (cfg : TTSConfig) (st : TTSState)
    (t : List Char) (outputPath : FilePathTok) (lang key : List Char) :
    (resolveViaChain cfg st t outputPath lang key).hit = false := by
  rw [resolveViaChain]
  rcases hw : (runChain ((chainEngines cfg).map
      (fun e => (e, attempt cfg t lang e)))).2 with _ | ⟨e, b⟩
  · simp [hw]
  · simp only [hw]
    split <;> rfl

/-- The chain resolver returns a path exactly when some engine won. -/
lemma resolveViaChain_result (cfg : TTSConfig) (st : TTSState)
    (t : List Char) (outputPath : FilePathTok) (lang key : List Char) :
    (resolveViaChain cfg st t outputPath lang key).result.isSome =
      (runChain ((chainEngines cfg).map
        (fun e => (e, attempt cfg t lang e)))).2.isSome := by
  rw [resolveViaChain]
  rcases hw : (runChain ((chainEngines cfg).map
      (fun e => (e, attempt cfg t lang e)))).2 with _ | ⟨e, b⟩
  · simp [hw]
  · simp only [hw]
    split <;> rfl

/-- Text that fails the truthiness test also cleans to empty. -/
lemma pyFalsy_clean_empty (text : List Char) (h : pyFalsy text = true) :
    (clean_script_markers (pyStrip text)).isEmpty = true := by
  rw [pyFalsy, Bool.or_eq_true] at h
  rcases h with h | h
  · rw [List.isEmpty_iff] at h
    rw [h]
    rfl
  · rw [List.isEmpty_iff] at h
    rw [h]
    rfl

/-- C2: on text that is non-empty after marker stripping, one resolve
call invokes engines in the fixed priority order say (macOS only), Edge
TTS, gTTS (when importable), fallback: the trace is a subsequence of
that order with no engine repeated, every engine invoked before the last
failed, and whenever the call returns a path without a cache hit, the
last engine invoked is one that succeeded. -/
theorem engine_chain_priority (cfg : TTSConfig) (st : TTSState)
    (text : List Char) (outputPath : FilePathTok) (lang : List Char)
    (h : (clean_script_markers (pyStrip text)).isEmpty = false) :
    List.Sublist (text_to_speech cfg st text outputPath lang).engines
        [.say, .edge, .gtts, .fallback]
      ∧ (text_to_speech cfg st text outputPath lang).engines.Nodup
      ∧ (∀ e ∈ (text_to_speech cfg st text outputPath
            lang).engines.dropLast,
          attempt cfg (clean_script_markers (pyStrip text)) lang e =
            none)
      ∧ ((text_to_speech cfg st text outputPath lang).hit = false →
          (text_to_speech cfg st text outputPath
            lang).result.isSome = true →
          ∃ e, (text_to_speech cfg st text outputPath
              lang).engines.getLast? = some e
            ∧ (attempt cfg (clean_script_markers (pyStrip text)) lang
                e).isSome = true) := by
  have hf : pyFalsy text = false := by
    rcases hb : pyFalsy text with _ | _
    · rfl
    · rw [pyFalsy_clean_empty text hb] at h
      exact absurd h (by decide)
  rw [text_to_speech, hf]
  simp only [Bool.false_eq_true, if_false, h, if_neg (by decide :
    ¬ (false = true))]
  rw [resolveNonEmpty]
  rcases hm : (if cfg.cacheEnabled then
      st.cache (cfg.hash (cacheKeyInput
        (clean_script_markers (pyStrip text)) lang)) else none) with
    _ | b
  · simp only [hm]
    refine ⟨?_, ?_, ?_, ?_⟩
    · rw [resolveViaChain_engines]
      exact (runChain_trace_sublist _ _).trans (chainEngines_sublist cfg)
    · rw [resolveViaChain_engines]
      exact List.Nodup.sublist
        ((runChain_trace_sublist _ _).trans (chainEngines_sublist cfg))
        (by decide)
    · rw [resolveViaChain_engines]
      exact runChain_dropLast_failed _ _
    · intro _ hres
      rw [resolveViaChain_result] at hres
      rcases hw : (runChain ((chainEngines cfg).map
          (fun e => (e, attempt cfg (clean_script_markers
            (pyStrip text)) lang e)))).2 with _ | ⟨e, b⟩
      · rw [hw] at hres
        exact absurd hres (by decide)
      · have hlast := runChain_last_success _ (chainEngines cfg) e b hw
        refine ⟨e, ?_, ?_⟩
        · rw [resolveViaChain_engines]
          exact hlast.1
        · rw [hlast.2]
          rfl
  · simp only [hm]
    refine ⟨List.nil_sublist _, List.nodup_nil, ?_, ?_⟩
    · intro e he
      simp at he
    · intro hhit
      exact absurd hhit (by decide)

/-- Concrete configuration for witnesses: caching on, Linux host, gTTS
importable and succeeding, other engines failing, identity digest. -/
def cfgGtts : TTSConfig :=
  ⟨true, .linux, true, id, fun _ _ => none, fun _ _ => none,
    fun _ _ => some 7, fun _ _ => none⟩

/-- Concrete configuration for the cache counterexample: caching on,
Linux host, Edge TTS succeeding, gTTS unavailable. -/
def cfgEdge : TTSConfig :=
  ⟨true, .linux, false, id, fun _ _ => none, fun _ _ => some 5,
    fun _ _ => none, fun _ _ => none⟩

/-- Fresh state: empty cache, empty file system. -/
def stEmpty : TTSState := ⟨fun _ => none, fun _ => none⟩

/-- Witness for the engine-chain theorem at a concrete input. -/
theorem engine_chain_priority_witness :
    (clean_script_markers (pyStrip "hi".toList)).isEmpty = false
      ∧ (List.Sublist
            (text_to_speech cfgGtts stEmpty "hi".toList 0
              "zh".toList).engines
            [.say, .edge, .gtts, .fallback]
        ∧ (text_to_speech cfgGtts stEmpty "hi".toList 0
            "zh".toList).engines.Nodup
        ∧ (∀ e ∈ (text_to_speech cfgGtts stEmpty "hi".toList 0
              "zh".toList).engines.dropLast,
            attempt cfgGtts (clean_script_markers (pyStrip "hi".toList))
              "zh".toList e = none)
        ∧ ((text_to_speech cfgGtts stEmpty "hi".toList 0
              "zh".toList).hit = false →
            (text_to_speech cfgGtts stEmpty "hi".toList 0
              "zh".toList).result.isSome = true →
            ∃ e, (text_to_speech cfgGtts stEmpty "hi".toList 0
                "zh".toList).engines.getLast? = some e
              ∧ (attempt cfgGtts
                  (clean_script_markers (pyStrip "hi".toList))
                  "zh".toList e).isSome = true)) :=
  ⟨by decide,
    engine_chain_priority cfgGtts stEmpty "hi".toList 0 "zh".toList
      (by decide)⟩

/-- C1 counterexample: with caching enabled on a host where the Edge TTS
engine succeeds, the first resolve call succeeds and returns a path, yet
— because only the gTTS branch stores into the cache — the second call
with the state left by the first is not a cache hit and invokes the Edge
engine again. -/
theorem second_call_not_cache_hit :
    cfgEdge.cacheEnabled = true
      ∧ (text_to_speech cfgEdge stEmpty "hi".toList 0
          "zh".toList).result = some 0
      ∧ (text_to_speech cfgEdge
          (text_to_speech cfgEdge stEmpty "hi".toList 0
            "zh".toList).state "hi".toList 1 "zh".toList).hit = false
      ∧ (text_to_speech cfgEdge
          (text_to_speech cfgEdge stEmpty "hi".toList 0
            "zh".toList).state "hi".toList 1 "zh".toList).engines =
        [.edge] := by
  refine ⟨rfl, by decide, by decide, by decide⟩

/-- With caching enabled and the key present, resolveNonEmpty takes the
cache-hit branch: the cached bytes are copied to the output location and
no engine runs. -/
lemma resolveNonEmpty_hit_case (cfg : TTSConfig) (st : TTSState)
    (t : List Char) (out : FilePathTok) (lang : List Char)
    (hen : cfg.cacheEnabled = true) (b : Bytes)
    (hm : st.cache (cfg.hash (cacheKeyInput t lang)) = some b) :
    resolveNonEmpty cfg st t out lang =
      ⟨some out, ⟨st.cache, updateFn st.files out b⟩, true, true, false,
        []⟩ := by
  rw [resolveNonEmpty]
  simp only [hen, if_true, hm]

/-- With caching enabled and the key absent, resolveNonEmpty falls
through to the engine chain. -/
lemma resolveNonEmpty_miss_case (cfg : TTSConfig) (st : TTSState)
    (t : List Char) (out : FilePathTok) (lang : List Char)
    (hen : cfg.cacheEnabled = true)
    (hm : st.cache (cfg.hash (cacheKeyInput t lang)) = none) :
    resolveNonEmpty cfg st t out lang =
      resolveViaChain cfg st t out lang
        (cfg.hash (cacheKeyInput t lang)) := by
  rw [resolveNonEmpty]
  simp only [hen, if_true, hm]

/-- When the chain resolver reports a cache store, it succeeded via gTTS
and the final state has the audio bytes both at the output location and
under the cache key. -/
lemma resolveViaChain_stored_case (cfg : TTSConfig) (st : TTSState)
    (t : List Char) (out : FilePathTok) (lang key : List Char)
    (hst : (resolveViaChain cfg st t out lang key).stored = true) :
    ∃ bb, resolveViaChain cfg st t out lang key =
      ⟨some out, ⟨updateFn st.cache key bb, updateFn st.files out bb⟩,
        true, false, true,
        (runChain ((chainEngines cfg).map
          (fun e => (e, attempt cfg t lang e)))).1⟩ := by
  rw [resolveViaChain] at hst ⊢
  rcases hw : (runChain ((chainEngines cfg).map
      (fun e => (e, attempt cfg t lang e)))).2 with _ | ⟨e, bb⟩
  · simp only [hw] at hst
    simp at hst
  · simp only [hw] at hst ⊢
    by_cases hg : e = Engine.gtts ∧ cfg.cacheEnabled = true
    · rw [if_pos hg] at hst ⊢
      exact ⟨bb, rfl⟩
    · rw [if_neg hg] at hst
      simp at hst

/-- C1 amended: with caching enabled, whenever the first resolve call
either hits the cache or stores into it (the latter happens exactly on a
gTTS success), a second call on the same (text, language) with the state
left by the first call takes the cache-hit branch: it invokes no engine,
returns the second output path, and writes output byte-identical both to
the first call's artifact and to the cached artifact. -/
theorem cache_hit_on_second_call (cfg : TTSConfig) (st : TTSState)
    (text lang : List Char) (out1 out2 : FilePathTok)
    (hen : cfg.cacheEnabled = true)
    (hfirst : (text_to_speech cfg st text out1 lang).hit = true
      ∨ (text_to_speech cfg st text out1 lang).stored = true) :
    (text_to_speech cfg (text_to_speech cfg st text out1 lang).state
        text out2 lang).hit = true
      ∧ (text_to_speech cfg (text_to_speech cfg st text out1 lang).state
          text out2 lang).engines = []
      ∧ (text_to_speech cfg (text_to_speech cfg st text out1 lang).state
          text out2 lang).result = some out2
      ∧ (text_to_speech cfg (text_to_speech cfg st text out1 lang).state
          text out2 lang).state.files out2 =
        (text_to_speech cfg st text out1 lang).state.files out1
      ∧ (text_to_speech cfg (text_to_speech cfg st text out1 lang).state
          text out2 lang).state.files out2 =
        (text_to_speech cfg st text out1 lang).state.cache
          (cfg.hash (cacheKeyInput
            (clean_script_markers (pyStrip text)) lang)) := by
  have hf : pyFalsy text = false := by
    rcases hb : pyFalsy text with _ | _
    · rfl
    · rw [text_to_speech, hb] at hfirst
      simp [emptyOutcome] at hfirst
  have hne : (clean_script_markers (pyStrip text)).isEmpty = false := by
    rcases hb : (clean_script_markers (pyStrip text)).isEmpty with _ | _
    · rfl
    · rw [text_to_speech, if_neg (by simp [hf])] at hfirst
      simp only [hb, if_true] at hfirst
      simp [emptyOutcome] at hfirst
  have hr1 : text_to_speech cfg st text out1 lang =
      resolveNonEmpty cfg st (clean_script_markers (pyStrip text)) out1
        lang := by
    rw [text_to_speech, if_neg (by simp [hf])]
    simp only [hne]
    rfl
  have hr2fun : ∀ st' : TTSState,
      text_to_speech cfg st' text out2 lang =
        resolveNonEmpty cfg st' (clean_script_markers (pyStrip text))
          out2 lang := by
    intro st'
    rw [text_to_speech, if_neg (by simp [hf])]
    simp only [hne]
    rfl
  rw [hr1] at hfirst ⊢
  rw [hr2fun]
  rcases hm : st.cache (cfg.hash (cacheKeyInput
      (clean_script_markers (pyStrip text)) lang)) with _ | b
  · -- first call missed the cache, so it must have stored via gTTS
    rw [resolveNonEmpty_miss_case cfg st _ out1 lang hen hm] at hfirst ⊢
    have hstored : (resolveViaChain cfg st
        (clean_script_markers (pyStrip text)) out1 lang
        (cfg.hash (cacheKeyInput (clean_script_markers (pyStrip text))
          lang))).stored = true := by
      rcases hfirst with hfirst | hfirst
      · rw [resolveViaChain_hit] at hfirst
        exact absurd hfirst (by decide)
      · exact hfirst
    obtain ⟨bb, e2⟩ := resolveViaChain_stored_case cfg st _ out1 lang _
      hstored
    rw [e2]
    dsimp only
    rw [resolveNonEmpty_hit_case cfg
      ⟨updateFn st.cache (cfg.hash (cacheKeyInput
        (clean_script_markers (pyStrip text)) lang)) bb,
        updateFn st.files out1 bb⟩ _ out2 lang hen bb
      (by simp [updateFn])]
    simp [updateFn]
  · -- first call hit the cache
    rw [resolveNonEmpty_hit_case cfg st _ out1 lang hen b hm]
    dsimp only
    rw [resolveNonEmpty_hit_case cfg
      ⟨st.cache, updateFn st.files out1 b⟩ _ out2 lang hen b hm]
    simp [updateFn, hm]

/-- Witness for the amended cache theorem at a concrete input: gTTS
succeeds on the first call and stores into the cache. -/
theorem cache_hit_on_second_call_witness :
    (cfgGtts.cacheEnabled = true
        ∧ ((text_to_speech cfgGtts stEmpty "hi".toList 0
              "zh".toList).hit = true
          ∨ (text_to_speech cfgGtts stEmpty "hi".toList 0
              "zh".toList).stored = true))
      ∧ ((text_to_speech cfgGtts
            (text_to_speech cfgGtts stEmpty "hi".toList 0
              "zh".toList).state "hi".toList 1 "zh".toList).hit = true
        ∧ (text_to_speech cfgGtts
            (text_to_speech cfgGtts stEmpty "hi".toList 0
              "zh".toList).state "hi".toList 1 "zh".toList).engines = []
        ∧ (text_to_speech cfgGtts
            (text_to_speech cfgGtts stEmpty "hi".toList 0
              "zh".toList).state "hi".toList 1 "zh".toList).result =
          some 1
        ∧ (text_to_speech cfgGtts
            (text_to_speech cfgGtts stEmpty "hi".toList 0
              "zh".toList).state "hi".toList 1 "zh".toList).state.files
            1 =
          (text_to_speech cfgGtts stEmpty "hi".toList 0
            "zh".toList).state.files 0
        ∧ (text_to_speech cfgGtts
            (text_to_speech cfgGtts stEmpty "hi".toList 0
              "zh".toList).state "hi".toList 1 "zh".toList).state.files
            1 =
          (text_to_speech cfgGtts stEmpty "hi".toList 0
            "zh".toList).state.cache
            (cfgGtts.hash (cacheKeyInput
              (clean_script_markers (pyStrip "hi".toList))
              "zh".toList))) :=
  ⟨⟨rfl, Or.inr (by decide)⟩,
    cache_hit_on_second_call cfgGtts stEmpty "hi".toList "zh".toList 0 1
      rfl (Or.inr (by decide))⟩

/-- Parsing a digit character inverts formatting. -/
lemma digitVal_digitChar (d : Nat) (h : d < 10) :
    digitVal (digitChar d) = d := by
  interval_cases d <;> rfl

/-- Every character produced by the decimal formatter is a digit
character. -/
lemma natDigitsF_digits :
    ∀ (fuel n : Nat), ∀ c ∈ natDigitsF fuel n,
      ∃ d, d < 10 ∧ c = digitChar d := by
  intro fuel
  induction fuel with
  | zero =>
      intro n c hc
      rw [natDigitsF] at hc
      rcases List.mem_singleton.mp hc with rfl
      exact ⟨n % 10, Nat.mod_lt n (by omega), rfl⟩
  | succ fuel ih =>
      intro n c hc
      rw [natDigitsF] at hc
      by_cases h10 : n < 10
      · rw [if_pos h10] at hc
        rcases List.mem_singleton.mp hc with rfl
        exact ⟨n, h10, rfl⟩
      · rw [if_neg h10] at hc
        rcases List.mem_append.mp hc with h | h
        · exact ih (n / 10) c h
        · rcases List.mem_singleton.mp h with rfl
          exact ⟨n % 10, Nat.mod_lt n (by omega), rfl⟩

/-- Parsing after appending one digit character. -/
lemma parseNat_concat (ds : List Char) (c : Char) :
    parseNat (ds ++ [c]) = parseNat ds * 10 + digitVal c := by
  rw [parseNat, parseNat, List.foldl_append]
  rfl

/-- Parsing inverts the fuelled decimal formatter. -/
lemma parseNat_natDigitsF :
    ∀ (fuel n : Nat), n ≤ fuel → parseNat (natDigitsF fuel n) = n := by
  intro fuel
  induction fuel with
  | zero =>
      intro n hn
      have h0 : n = 0 := by omega
      subst h0
      decide
  | succ fuel ih =>
      intro n hn
      rw [natDigitsF]
      by_cases h10 : n < 10
      · rw [if_pos h10, parseNat]
        simp [List.foldl_cons, digitVal_digitChar n h10]
      · rw [if_neg h10, parseNat_concat]
        have hdiv : n / 10 ≤ fuel := by
          have := Nat.div_lt_self (by omega : 0 < n)
            (by omega : 1 < 10)
          omega
        rw [ih (n / 10) hdiv,
          digitVal_digitChar (n % 10) (Nat.mod_lt n (by omega))]
        omega

/-- Parsing inverts the decimal formatter. -/
lemma parseNat_natDigits (n : Nat) : parseNat (natDigits n) = n :=
  parseNat_natDigitsF n n le_rfl

/-- Parsing a leading zero leaves the value unchanged. -/
lemma parseNat_cons_zero (t : List Char) :
    parseNat ('0' :: t) = parseNat t := by
  rw [parseNat, parseNat, List.foldl_cons]
  have h0 : (0 * 10 + digitVal '0') = 0 := by decide
  rw [h0]

/-- Leading zero padding leaves the parsed value unchanged. -/
lemma parseNat_replicate_zeros :
    ∀ (k : Nat) (ds : List Char),
      parseNat (List.replicate k '0' ++ ds) = parseNat ds := by
  intro k
  induction k with
  | zero => intro ds; rfl
  | succ k ih =>
      intro ds
      rw [List.replicate_succ, List.cons_append, parseNat_cons_zero, ih]

/-- Parsing inverts the zero-padded page formatter. -/
lemma parseNat_pad3 (p : Nat) : parseNat (pad3 p) = p := by
  rw [pad3, parseNat_replicate_zeros, parseNat_natDigits]

/-- Characters of the zero-padded page number are never a slash, a dot,
or an underscore. -/
lemma pad3_chars (p : Nat) :
    ∀ c ∈ pad3 p, c ≠ '/' ∧ c ≠ '.' ∧ c ≠ '_' := by
  intro c hc
  rcases List.mem_append.mp hc with h | h
  · rcases List.eq_of_mem_replicate h with rfl
    exact ⟨by decide, by decide, by decide⟩
  · obtain ⟨d, hd, rfl⟩ := natDigitsF_digits p p c h
    interval_cases d <;> exact ⟨by decide, by decide, by decide⟩

/-- No character of the generated file name is a slash. -/
lemma audioName_no_slash (p : Nat) : ∀ c ∈ audioName p, c ≠ '/' := by
  intro c hc
  rw [audioName] at hc
  rcases List.mem_append.mp hc with h | h
  · rcases List.mem_append.mp h with h1 | h1
    · have h2 : c ∈ ['a', 'u', 'd', 'i', 'o', '_'] := h1
      fin_cases h2 <;> decide
    · exact (pad3_chars p c h1).1
  · have h2 : c ∈ ['.', 'm', 'p', '3'] := h
    fin_cases h2 <;> decide

/-- takeWhile over a satisfying prefix followed by a failing element. -/
lemma takeWhile_prefix_append (p : Char → Bool) :
    ∀ (xs : List Char) (y : Char) (ys : List Char),
      (∀ x ∈ xs, p x = true) → p y = false →
      (xs ++ y :: ys).takeWhile p = xs := by
  intro xs
  induction xs with
  | nil =>
      intro y ys _ hy
      simp [List.takeWhile_cons, hy]
  | cons x xs ih =>
      intro y ys hxs hy
      have hx : p x = true := hxs x (List.mem_cons_self x xs)
      simp [List.takeWhile_cons, hx,
        ih y ys (fun z hz => hxs z (List.mem_cons_of_mem x hz)) hy]

/-- dropWhile over a satisfying prefix followed by a failing element. -/
lemma dropWhile_prefix_append (p : Char → Bool) :
    ∀ (xs : List Char) (y : Char) (ys : List Char),
      (∀ x ∈ xs, p x = true) → p y = false →
      (xs ++ y :: ys).dropWhile p = y :: ys := by
  intro xs
  induction xs with
  | nil =>
      intro y ys _ hy
      simp [List.dropWhile_cons, hy]
  | cons x xs ih =>
      intro y ys hxs hy
      have hx : p x = true := hxs x (List.mem_cons_self x xs)
      simp [List.dropWhile_cons, hx,
        ih y ys (fun z hz => hxs z (List.mem_cons_of_mem x hz)) hy]

/-- Path(x).name on a generated path recovers the file name. -/
lemma filenamePart_audioPath (dir : List Char) (p : Nat) :
    filenamePart (audioPath dir p) = audioName p := by
  rw [filenamePart, audioPath]
  have hrev : (dir ++ '/' :: audioName p).reverse =
      (audioName p).reverse ++ '/' :: dir.reverse := by
    simp
  rw [hrev, takeWhile_prefix_append _ _ _ _
    (fun x hx => by
      have hx' : x ∈ audioName p := List.mem_reverse.mp hx
      simp [audioName_no_slash p x hx'])
    (by simp)]
  exact List.reverse_reverse _

/-- Path(x).stem on a name ending in the audio extension strips exactly
that extension. -/
lemma stemPart_concat (xs : List Char) :
    stemPart (xs ++ ".mp3".toList) = xs := by
  have hmem : '.' ∈ xs ++ ".mp3".toList := by
    refine List.mem_append.mpr (Or.inr ?_)
    decide
  rw [stemPart, if_pos hmem]
  have hrev : (xs ++ ".mp3".toList).reverse =
      ['3', 'p', 'm'] ++ '.' :: xs.reverse := by
    simp
  rw [hrev, dropWhile_prefix_append _ _ _ _ (by decide) (by decide)]
  simp

/-- Splitting a list with no separator yields a single field. -/
lemma splitOnCharGo_no_sep (sep : Char) :
    ∀ (ys cur : List Char), (∀ c ∈ ys, c ≠ sep) →
      splitOnCharGo sep cur ys = [cur.reverse ++ ys] := by
  intro ys
  induction ys with
  | nil => intro cur _; simp [splitOnCharGo]
  | cons y ys ih =>
      intro cur h
      have hy : ¬ y = sep := h y (List.mem_cons_self y ys)
      rw [splitOnCharGo, if_neg hy,
        ih (y :: cur) (fun c hc => h c (List.mem_cons_of_mem y hc))]
      simp

/-- Splitting at the first separator occurrence. -/
lemma splitOnCharGo_sep_append (sep : Char) :
    ∀ (xs cur ys : List Char), (∀ c ∈ xs, c ≠ sep) →
      splitOnCharGo sep cur (xs ++ sep :: ys) =
        (cur.reverse ++ xs) :: splitOnCharGo sep [] ys := by
  intro xs
  induction xs with
  | nil =>
      intro cur ys _
      rw [List.nil_append, splitOnCharGo, if_pos rfl]
      simp
  | cons x xs ih =>
      intro cur ys h
      have hx : ¬ x = sep := h x (List.mem_cons_self x xs)
      rw [List.cons_append, splitOnCharGo, if_neg hx,
        ih (x :: cur) ys (fun c hc => h c (List.mem_cons_of_mem x hc))]
      simp

/-- The sort key of line 525 recovers the page number from a generated
audio path: parsing undoes naming. -/
lemma sortKey_audioPath (dir : List Char) (p : Nat) :
    sortKey (audioPath dir p) = p := by
  rw [sortKey, filenamePart_audioPath]
  have hname : audioName p =
      ("audio_".toList ++ pad3 p) ++ ".mp3".toList := by
    rw [audioName, List.append_assoc]
  rw [hname, stemPart_concat]
  have hsplit : "audio_".toList ++ pad3 p =
      "audio".toList ++ '_' :: pad3 p := rfl
  rw [hsplit, splitOnChar, splitOnCharGo_sep_append _ _ _ _
    (by intro c hc; have h2 : c ∈ ['a', 'u', 'd', 'i', 'o'] := hc
        fin_cases h2 <;> decide),
    splitOnCharGo_no_sep _ _ _
      (fun c hc => (pad3_chars p c hc).2.2)]
  simp [parseNat_pad3]

/-- filterMap preserves permutation (collection in any completion order
yields the same multiset of results). -/
lemma perm_filterMap {α β : Type} (f : α → Option β)
    {l₁ l₂ : List α} (h : l₁.Perm l₂) :
    (l₁.filterMap f).Perm (l₂.filterMap f) := by
  induction h with
  | nil => exact List.Perm.refl _
  | cons x h ih =>
      rcases hfx : f x with _ | b <;>
        simp [List.filterMap_cons, hfx, ih, List.Perm.cons]
  | swap x y l =>
      rcases hfx : f x with _ | b <;> rcases hfy : f y with _ | b' <;>
        simp [List.filterMap_cons, hfx, hfy]
      exact List.Perm.swap b b' _
  | trans h1 h2 ih1 ih2 => exact ih1.trans ih2

/-- Two sorted permutations of the same multiset coincide when elements
with equal keys are equal. -/
lemma sorted_key_unique :
    ∀ {l₁ l₂ : List (List Char)}, l₁.Perm l₂ → l₁.Sorted keyLE →
      l₂.Sorted keyLE →
      (∀ a ∈ l₁, ∀ b ∈ l₁, sortKey a = sortKey b → a = b) →
      l₁ = l₂ := by
  intro l₁
  induction l₁ with
  | nil =>
      intro l₂ hp _ _ _
      exact (hp.symm.eq_nil).symm
  | cons a t ih =>
      intro l₂ hp hs1 hs2 hinj
      rcases l₂ with _ | ⟨b, t₂⟩
      · exact absurd hp.eq_nil (by simp)
      · have hab : a = b := by
          by_cases heq : a = b
          · exact heq
          · have hbmem : b ∈ a :: t :=
              hp.mem_iff.mpr (List.mem_cons_self b t₂)
            have hamem : a ∈ b :: t₂ :=
              hp.mem_iff.mp (List.mem_cons_self a t)
            have hbt : b ∈ t := by
              rcases List.mem_cons.mp hbmem with h | h
              · exact absurd h.symm heq
              · exact h
            have hat2 : a ∈ t₂ := by
              rcases List.mem_cons.mp hamem with h | h
              · exact absurd h heq
              · exact h
            have h1 : keyLE a b := List.rel_of_sorted_cons hs1 b hbt
            have h2 : keyLE b a := List.rel_of_sorted_cons hs2 a hat2
            exact hinj a (List.mem_cons_self a t) b hbmem
              (Nat.le_antisymm h1 h2)
        subst hab
        have ht : t = t₂ :=
          ih hp.cons_inv hs1.of_cons hs2.of_cons
            (fun x hx y hy hxy =>
              hinj x (List.mem_cons_of_mem a hx) y
                (List.mem_cons_of_mem a hy) hxy)
        rw [ht]

/-- Every collected result is a generated audio path. -/
lemma collectResults_mem (dir : List Char) (succ : List Char → Bool)
    (order : List BatchTask) (x : List Char)
    (hx : x ∈ collectResults dir succ order) :
    ∃ p, x = audioPath dir p := by
  rw [collectResults] at hx
  rcases List.mem_filterMap.mp hx with ⟨tk, _, htk⟩
  by_cases hs : succ tk.text
  · rw [if_pos hs] at htk
    exact ⟨tk.page, (Option.some.inj htk).symm⟩
  · rw [if_neg hs] at htk
    exact absurd htk (by simp)

/-- C8: for every batch of script units and every completion order of
the concurrent tasks, the batch output is sorted by the page number
parsed from each artifact name, and it is identical to the output of
the sequential completion order — completion order never affects the
final list. -/
theorem batch_output_sorted_by_page (dir : List Char)
    (scripts : List Script) (succ : List Char → Bool)
    (completionOrder : List BatchTask)
    (hperm : completionOrder.Perm (prepTasks 0 scripts)) :
    text_to_speech_batch dir succ completionOrder =
        text_to_speech_batch dir succ (prepTasks 0 scripts)
      ∧ (text_to_speech_batch dir succ completionOrder).Sorted keyLE :=
    by
  have hsorted1 :
      (text_to_speech_batch dir succ completionOrder).Sorted keyLE :=
    List.sorted_insertionSort keyLE _
  have hsorted2 :
      (text_to_speech_batch dir succ (prepTasks 0 scripts)).Sorted
        keyLE :=
    List.sorted_insertionSort keyLE _
  have hpermc :
      (collectResults dir succ completionOrder).Perm
        (collectResults dir succ (prepTasks 0 scripts)) :=
    perm_filterMap _ hperm
  have hp2 :
      (text_to_speech_batch dir succ completionOrder).Perm
        (text_to_speech_batch dir succ (prepTasks 0 scripts)) :=
    (List.perm_insertionSort keyLE _).trans
      (hpermc.trans (List.perm_insertionSort keyLE _).symm)
  have hinj : ∀ a ∈ text_to_speech_batch dir succ completionOrder,
      ∀ b ∈ text_to_speech_batch dir succ completionOrder,
      sortKey a = sortKey b → a = b := by
    intro a ha b hb hk
    have ha' : a ∈ collectResults dir succ completionOrder :=
      (List.mem_insertionSort keyLE).mp ha
    have hb' : b ∈ collectResults dir succ completionOrder :=
      (List.mem_insertionSort keyLE).mp hb
    obtain ⟨pa, rfl⟩ := collectResults_mem dir succ _ a ha'
    obtain ⟨pb, rfl⟩ := collectResults_mem dir succ _ b hb'
    rw [sortKey_audioPath, sortKey_audioPath] at hk
    rw [hk]
  exact ⟨sorted_key_unique hp2 hsorted1 hsorted2 hinj, hsorted1⟩

/-- Witness for the batch-ordering theorem at a concrete input: two
tasks completing in reversed order. -/
theorem batch_output_sorted_by_page_witness :
    ([⟨"a".toList, 2⟩, ⟨"b".toList, 3⟩] : List BatchTask).Perm
        (prepTasks 0
          [⟨some 3, "b".toList, []⟩, ⟨none, [], "a".toList⟩])
      ∧ (text_to_speech_batch "./out".toList (fun _ => true)
            [⟨"a".toList, 2⟩, ⟨"b".toList, 3⟩] =
          text_to_speech_batch "./out".toList (fun _ => true)
            (prepTasks 0
              [⟨some 3, "b".toList, []⟩, ⟨none, [], "a".toList⟩])
        ∧ (text_to_speech_batch "./out".toList (fun _ => true)
            [⟨"a".toList, 2⟩, ⟨"b".toList, 3⟩]).Sorted keyLE) :=
  ⟨by decide,
    batch_output_sorted_by_page "./out".toList
      [⟨some 3, "b".toList, []⟩, ⟨none, [], "a".toList⟩]
      (fun _ => true) [⟨"a".toList, 2⟩, ⟨"b".toList, 3⟩] (by decide)⟩

end PPT
